import Mathlib

/-!
Verification of the GJK / EPA collision core of the asteroidField repository.

The source is embedded shallowly over exact rationals: every arithmetic
operation of the C++ code (Eigen dot and cross products, comparisons) is
exact on rationals, so the embedding keeps them on the field of rationals.
The single operation that leaves the rationals is the square root inside
vector norms; the functions that use a norm take the square-root function as
an explicit parameter, written sq below.  Theorems about those functions are
proved for every sq, and concrete evaluations instantiate sq with an exact
rational square root at inputs whose radicands are perfect squares, where the
rational value agrees with the real square root used by the source.

The constants MAX_ITERATIONS and EPA_TOLERANCE come from GjkAlgorithm.cpp;
DBL_MAX is the exact value of the largest finite IEEE-754 double, the value
of std::numeric_limits of double max() used to seed the running extrema.
-/

set_option maxRecDepth 8000
set_option exponentiation.threshold 1300
set_option linter.unusedVariables false

namespace AsteroidGjk

/-- Three-dimensional vector with exact rational coordinates, the embedding
of Eigen::Vector3d as used by the collision core. -/
@[ext]
structure Vec3 where
  x : ℚ
  y : ℚ
  z : ℚ
deriving DecidableEq

instance : Inhabited Vec3 := ⟨⟨0, 0, 0⟩⟩

namespace Vec3

/-- Componentwise addition. -/
def add (a b : Vec3) : Vec3 := ⟨a.x + b.x, a.y + b.y, a.z + b.z⟩

/-- Componentwise subtraction. -/
def sub (a b : Vec3) : Vec3 := ⟨a.x - b.x, a.y - b.y, a.z - b.z⟩

/-- Componentwise negation. -/
def neg (a : Vec3) : Vec3 := ⟨-a.x, -a.y, -a.z⟩

/-- Scalar multiplication. -/
def smul (q : ℚ) (a : Vec3) : Vec3 := ⟨q * a.x, q * a.y, q * a.z⟩

/-- Euclidean inner product. -/
def dot (a b : Vec3) : ℚ := a.x * b.x + a.y * b.y + a.z * b.z

/-- Cross product, with the Eigen component order. -/
def cross (a b : Vec3) : Vec3 :=
  ⟨a.y * b.z - a.z * b.y, a.z * b.x - a.x * b.z, a.x * b.y - a.y * b.x⟩

end Vec3

/-- The exact value of the largest finite IEEE-754 double,
std::numeric_limits of double max(). -/
def DBL_MAX : ℚ :=
  179769313486231570814527423731704356798070567525844996598917476803157260780028538760589558632766878171540458953514382464234321326889464182768467546703537516986049910576551282076245490090389328944075868508455133942304583236903222948165808559332123348274797826204144723168738177180919299881250404026184124858368

/-- GjkAlgorithm::MAX_ITERATIONS. -/
def MAX_ITERATIONS : ℕ := 50

/-- GjkAlgorithm::EPA_TOLERANCE = 0.00001. -/
def EPA_TOLERANCE : ℚ := 1 / 100000

/-- Modelled from the spec: the constant EPS of the simplex header is not
under src.  The spec only uses it as the epsilon of the factor (1 + EPS)
that pushes a synthesized vertex past the origin; its numeric value is
immaterial to every theorem of this file. -/
def EPS : ℚ := 1 / 1000000

/-- Modelled from the spec: Geometry.h is not under src.  The spec describes
the direction tests by the sign of a dot product and calls the separating
check of the GJK loop "dot product with direction is non-positive/opposite";
accordingly isOppositeDirection is the non-positive test and isSameDirection
its complement, the strictly positive test. -/
def isSameDirection (a b : Vec3) : Bool := decide (0 < Vec3.dot a b)

/-- Modelled from the spec: non-positive dot product, see isSameDirection. -/
def isOppositeDirection (a b : Vec3) : Bool := decide (Vec3.dot a b ≤ 0)

/-- Modelled from the spec: Geometry.h is not under src.  The spec says the
face scan "computes the plane normal (non-unit) from the 3 vertices"; the
plane normal of the triangle (a, b, c) is the cross product of its two edge
vectors out of a. -/
def getNormalFromPoints (a b c : Vec3) : Vec3 :=
  Vec3.cross (Vec3.sub b a) (Vec3.sub c a)

/-- SupportPoint: a Minkowski-difference point with the two contributing
hull points. -/
structure SupportPoint where
  minkowski : Vec3
  hull1 : Vec3
  hull2 : Vec3
deriving DecidableEq

instance : Inhabited SupportPoint := ⟨⟨default, default, default⟩⟩

/-- Simplex: the ordered vertex list plus the triangle list (triples of
indices into the vertex list) built by triangulate and maintained by
extend.  A simplex fresh from the GJK loop has an empty triangle list. -/
structure Simplex where
  verts : List SupportPoint
  triangles : List (ℕ × ℕ × ℕ)
deriving DecidableEq

/-- Simplex::count. -/
def Simplex.count (s : Simplex) : ℕ := s.verts.length

/-- Simplex::add: push_back of the new vertex. -/
def Simplex.add (s : Simplex) (p : SupportPoint) : Simplex :=
  ⟨s.verts ++ [p], s.triangles⟩

/-- Modelled from the spec: the remove member of the simplex header is not
under src; the spec says it "removes the first vertex matching by value". -/
def removeFirst : List SupportPoint → SupportPoint → List SupportPoint
  | [], _ => []
  | p :: ps, v => if p = v then ps else p :: removeFirst ps v

/-- Simplex::remove, on the vertex list only. -/
def Simplex.remove (s : Simplex) (p : SupportPoint) : Simplex :=
  ⟨removeFirst s.verts p, s.triangles⟩

/-- Indexing a simplex, simplex[i] of the source. -/
def sIdx (s : Simplex) (i : ℕ) : SupportPoint := s.verts.getD i default

/-- The Minkowski point of the i-th entry of a vertex list. -/
def minkAt (vs : List SupportPoint) (i : ℕ) : Vec3 := (vs.getD i default).minkowski

/-- The scanning loop of GjkAlgorithm::getFurthestPoint: the running
maximum starts at the negated largest double and the running candidate at
the origin, and a vertex replaces the candidate only when its dot product
strictly exceeds the running maximum. -/
def gfpAux (direction : Vec3) : List Vec3 → ℚ → Vec3 → Vec3
  | [], _, maxV => maxV
  | v :: vs, m, maxV =>
    if m < Vec3.dot v direction then gfpAux direction vs (Vec3.dot v direction) v
    else gfpAux direction vs m maxV

/-- GjkAlgorithm::getFurthestPoint. -/
def getFurthestPoint (convex : List Vec3) (direction : Vec3) : Vec3 :=
  gfpAux direction convex (-DBL_MAX) ⟨0, 0, 0⟩

/-- GjkAlgorithm::support: the Minkowski-difference support point of the two
hulls in the given direction. -/
def support (convex1 convex2 : List Vec3) (direction : Vec3) : SupportPoint :=
  ⟨Vec3.sub (getFurthestPoint convex1 direction) (getFurthestPoint convex2 (Vec3.neg direction)),
   getFurthestPoint convex1 direction,
   getFurthestPoint convex2 (Vec3.neg direction)⟩

/-- GjkAlgorithm::processLine.  The direction is an in-out parameter in the
source; here the function returns (converged, new simplex, new direction). -/
def processLine (s : Simplex) (d : Vec3) : Bool × Simplex × Vec3 :=
  let aSP := sIdx s 1
  let bSP := sIdx s 0
  let a := aSP.minkowski
  let b := bSP.minkowski
  let ab := Vec3.sub b a
  let aO := Vec3.neg a
  if isSameDirection ab aO then
    (false, s, Vec3.cross (Vec3.cross ab aO) ab)
  else
    (false, s.remove bSP, aO)

/-- GjkAlgorithm::processTriangle. -/
def processTriangle (s : Simplex) (d : Vec3) : Bool × Simplex × Vec3 :=
  let aSP := sIdx s 2
  let bSP := sIdx s 1
  let cSP := sIdx s 0
  let a := aSP.minkowski
  let b := bSP.minkowski
  let c := cSP.minkowski
  let ab := Vec3.sub b a
  let ac := Vec3.sub c a
  let abc := Vec3.cross ab ac
  let aO := Vec3.neg a
  let acNormal := Vec3.cross abc ac
  let abNormal := Vec3.cross ab abc
  if isSameDirection acNormal aO then
    if isSameDirection ac aO then
      (false, s.remove bSP, Vec3.cross (Vec3.cross ac aO) ac)
    else
      if isSameDirection ab aO then
        (false, s.remove cSP, Vec3.cross (Vec3.cross ab aO) ab)
      else
        (false, (s.remove bSP).remove cSP, aO)
  else
    if isSameDirection abNormal aO then
      if isSameDirection ab aO then
        (false, s.remove cSP, Vec3.cross (Vec3.cross ab aO) ab)
      else
        (false, (s.remove bSP).remove cSP, aO)
    else
      if isSameDirection abc aO then
        (false, s, Vec3.cross (Vec3.cross abc aO) abc)
      else
        (false, s, Vec3.cross (Vec3.neg (Vec3.cross abc aO)) (Vec3.neg abc))

/-- The fourth vertex (the newest, simplex[3]) of a tetrahedral simplex. -/
def tetraA (s : Simplex) : Vec3 := (sIdx s 3).minkowski

/-- The vector from the newest vertex toward the origin. -/
def tetraAO (s : Simplex) : Vec3 := Vec3.neg (tetraA s)

/-- The face normal abc = ac x ab of processTetrahedron. -/
def tetraABC (s : Simplex) : Vec3 :=
  Vec3.cross (Vec3.sub (sIdx s 1).minkowski (tetraA s)) (Vec3.sub (sIdx s 2).minkowski (tetraA s))

/-- The face normal acd = ad x ac of processTetrahedron. -/
def tetraACD (s : Simplex) : Vec3 :=
  Vec3.cross (Vec3.sub (sIdx s 0).minkowski (tetraA s)) (Vec3.sub (sIdx s 1).minkowski (tetraA s))

/-- The face normal abd = ab x ad of processTetrahedron. -/
def tetraABD (s : Simplex) : Vec3 :=
  Vec3.cross (Vec3.sub (sIdx s 2).minkowski (tetraA s)) (Vec3.sub (sIdx s 0).minkowski (tetraA s))

/-- GjkAlgorithm::processTetrahedron. -/
def processTetrahedron (s : Simplex) (d : Vec3) : Bool × Simplex × Vec3 :=
  let aSP := sIdx s 3
  let bSP := sIdx s 2
  let cSP := sIdx s 1
  let dSP := sIdx s 0
  let a := aSP.minkowski
  let b := bSP.minkowski
  let c := cSP.minkowski
  let dv := dSP.minkowski
  let ac := Vec3.sub c a
  let ad := Vec3.sub dv a
  let ab := Vec3.sub b a
  let acd := Vec3.cross ad ac
  let abd := Vec3.cross ab ad
  let abc := Vec3.cross ac ab
  let aO := Vec3.neg a
  if isSameDirection abc aO then
    if isSameDirection (Vec3.cross abc ac) aO then
      (false, (s.remove bSP).remove dSP, Vec3.cross (Vec3.cross ac aO) ac)
    else
      if isSameDirection (Vec3.cross ab abc) aO then
        (false, (s.remove cSP).remove dSP, Vec3.cross (Vec3.cross ab aO) ab)
      else
        (false, s.remove dSP, abc)
  else
    if isSameDirection acd aO then
      if isSameDirection (Vec3.cross acd ad) aO then
        (false, (s.remove bSP).remove cSP, Vec3.cross (Vec3.cross ad aO) ad)
      else
        if isSameDirection (Vec3.cross ac acd) aO then
          (false, (s.remove bSP).remove dSP, Vec3.cross (Vec3.cross ac aO) ac)
        else
          (false, s.remove bSP, acd)
    else
      if isSameDirection abd aO then
        if isSameDirection (Vec3.cross abd ab) aO then
          (false, (s.remove cSP).remove dSP, Vec3.cross (Vec3.cross ab aO) ab)
        else
          if isSameDirection (Vec3.cross ad abd) aO then
            (false, (s.remove bSP).remove cSP, Vec3.cross (Vec3.cross ad aO) ad)
          else
            (false, s.remove cSP, abd)
      else
        (true, s, d)

/-- GjkAlgorithm::processSimplex: dispatch on the vertex count. -/
def processSimplex (s : Simplex) (d : Vec3) : Bool × Simplex × Vec3 :=
  match s.count with
  | 2 => processLine s d
  | 3 => processTriangle s d
  | _ => processTetrahedron s d

/-- The iteration of GjkAlgorithm::intersect, by remaining fuel.  A none
result is the early return false of the source (the new support point does
not pass the origin); a some result carries the simplex that is current when
the loop ends, by convergence or by running out of iterations, and on which
the source then calls EPA. -/
def gjkLoop (convex1 convex2 : List Vec3) : ℕ → Simplex → Vec3 → Option Simplex
  | 0, s, _ => some s
  | Nat.succ n, s, d =>
    let a := support convex1 convex2 d
    if isOppositeDirection a.minkowski d then none
    else
      match processSimplex (s.add a) d with
      | (true, s2, _) => some s2
      | (false, s2, d2) => gjkLoop convex1 convex2 n s2 d2

/-- The initial support point of GjkAlgorithm::intersect, in direction
(1, 1, 1). -/
def initSupport (c1 c2 : List Vec3) : SupportPoint := support c1 c2 ⟨1, 1, 1⟩

/-- The initial one-vertex simplex of GjkAlgorithm::intersect. -/
def initSimplex (c1 c2 : List Vec3) : Simplex := ⟨[initSupport c1 c2], []⟩

/-- The initial search direction of GjkAlgorithm::intersect. -/
def initDir (c1 c2 : List Vec3) : Vec3 := Vec3.neg (initSupport c1 c2).minkowski

/-- The outcome of the GJK loop of GjkAlgorithm::intersect: none when the
source returns false, some simplex when the source falls through to EPA
with that simplex. -/
def intersectOutcome (c1 c2 : List Vec3) : Option Simplex :=
  gjkLoop c1 c2 MAX_ITERATIONS (initSimplex c1 c2) (initDir c1 c2)

/-- GjkAlgorithm::intersect.  When the loop yields a simplex the source
calls EPA on it, discards the EPA return value and returns true. -/
def intersect (c1 c2 : List Vec3) : Bool := (intersectOutcome c1 c2).isSome

/-- Specification-side predicate, following the words of the spec: true
exactly when, in some executed iteration of the GJK loop, the newly computed
support point has a non-positive dot product with the current search
direction (it "does not advance past the origin"). -/
def gjkSepSpec (convex1 convex2 : List Vec3) : ℕ → Simplex → Vec3 → Bool
  | 0, _, _ => false
  | Nat.succ n, s, d =>
    let a := support convex1 convex2 d
    if Vec3.dot a.minkowski d ≤ 0 then true
    else
      match processSimplex (s.add a) d with
      | (true, _, _) => false
      | (false, s2, d2) => gjkSepSpec convex1 convex2 n s2 d2

/-- Eigen normalized(): the vector divided by its norm, the norm being the
square root (the parameter sq) of the dot square. -/
def normalizedQ (sq : ℚ → ℚ) (v : Vec3) : Vec3 := Vec3.smul (1 / sq (Vec3.dot v v)) v

/-- The two synthesized vertices Simplex::triangulate appends to a 2-vertex
simplex: one at a 0.1 offset perpendicular to the plane of the two vertices
and the origin, one pushed past the origin by the factor (1 + EPS). -/
def pad2 (sq : ℚ → ℚ) (vs : List SupportPoint) : List SupportPoint :=
  let a := minkAt vs 0
  let b := minkAt vs 1
  let ba := Vec3.sub a b
  let bo := Vec3.neg b
  let toC := Vec3.cross ba bo
  vs ++ [⟨Vec3.add a (Vec3.smul (1 / 10) (normalizedQ sq toC)), ⟨0, 0, 0⟩, ⟨0, 0, 0⟩⟩,
         ⟨Vec3.add b (Vec3.smul (1 + EPS) bo), ⟨0, 0, 0⟩, ⟨0, 0, 0⟩⟩]

/-- The synthesized vertex Simplex::triangulate appends to a 3-vertex
simplex. -/
def pad3 (vs : List SupportPoint) : List SupportPoint :=
  let b := minkAt vs 1
  let bo := Vec3.neg b
  vs ++ [⟨Vec3.add b (Vec3.smul (1 + EPS) bo), ⟨0, 0, 0⟩, ⟨0, 0, 0⟩⟩]

/-- Simplex::isCorrectOrder on vertex indices: the triangle (a, b, c) points
outward when its plane normal is opposite to the vector from vertex a to the
opposite vertex. -/
def isCorrectOrderOn (vs : List SupportPoint) (a b c opp : ℕ) : Bool :=
  isOppositeDirection
    (getNormalFromPoints (minkAt vs a) (minkAt vs b) (minkAt vs c))
    (Vec3.sub (minkAt vs opp) (minkAt vs a))

/-- Simplex::triangulate.  none models the thrown invalid-size error; the
some case pads 2- and 3-vertex simplices to four vertices and appends one of
the two fixed 4-triangle index templates, chosen by isCorrectOrder on the
vertices 0 1 2 against vertex 3. -/
def triangulate (sq : ℚ → ℚ) (s : Simplex) : Option Simplex :=
  if s.verts.length < 2 ∨ 4 < s.verts.length then none
  else
    let vs1 := if s.verts.length = 2 then pad2 sq s.verts else s.verts
    let vs2 := if vs1.length = 3 then pad3 vs1 else vs1
    if isCorrectOrderOn vs2 0 1 2 3 then
      some ⟨vs2, s.triangles ++ [(0, 1, 2), (0, 3, 1), (0, 2, 3), (1, 3, 2)]⟩
    else
      some ⟨vs2, s.triangles ++ [(0, 2, 1), (0, 1, 3), (0, 3, 2), (1, 2, 3)]⟩

/-- Face: the closest-face descriptor of the EPA scan. -/
structure Face where
  vertices : List SupportPoint
  normal : Vec3
  distance : ℚ
deriving DecidableEq

/-- The (non-unit) plane normal of the triangle t of a vertex list. -/
def triNormal (vs : List SupportPoint) (t : ℕ × ℕ × ℕ) : Vec3 :=
  getNormalFromPoints (minkAt vs t.1) (minkAt vs t.2.1) (minkAt vs t.2.2)

/-- The plane distance to the origin Simplex::findClosestFace computes for
one triangle: the absolute value of the plane constant divided by the norm
of the plane normal. -/
def faceDistance (sq : ℚ → ℚ) (vs : List SupportPoint) (t : ℕ × ℕ × ℕ) : ℚ :=
  |(-(Vec3.dot (triNormal vs t) (minkAt vs t.1))) / sq (Vec3.dot (triNormal vs t) (triNormal vs t))|

/-- The Face record Simplex::findClosestFace stores for the triangle t. -/
def mkFace (sq : ℚ → ℚ) (vs : List SupportPoint) (t : ℕ × ℕ × ℕ) : Face :=
  ⟨[vs.getD t.1 default, vs.getD t.2.1 default, vs.getD t.2.2 default],
   normalizedQ sq (triNormal vs t), faceDistance sq vs t⟩

/-- The default-constructed Face of Simplex::findClosestFace: an empty
vertex list and the distance set to the largest double. -/
def initFace : Face := ⟨[], ⟨0, 0, 0⟩, DBL_MAX⟩

/-- The scan of Simplex::findClosestFace: a triangle replaces the running
closest face only when its distance is strictly smaller. -/
def fcfAux (sq : ℚ → ℚ) (vs : List SupportPoint) : List (ℕ × ℕ × ℕ) → Face → Face
  | [], acc => acc
  | t :: ts, acc =>
    if faceDistance sq vs t < acc.distance then fcfAux sq vs ts (mkFace sq vs t)
    else fcfAux sq vs ts acc

/-- Simplex::findClosestFace. -/
def findClosestFace (sq : ℚ → ℚ) (s : Simplex) : Face :=
  fcfAux sq s.verts s.triangles initFace

/-- Simplex::addEdge: a new edge cancels against the first stored edge with
the opposite orientation, otherwise it is appended. -/
def addEdge : List (ℕ × ℕ) → ℕ → ℕ → List (ℕ × ℕ)
  | [], a, b => [(a, b)]
  | e :: es, a, b => if e.1 = b ∧ e.2 = a then es else e :: addEdge es a b

/-- The triangle scan of Simplex::extend: triangles that see the new point
are dropped and contribute their edges, the others are kept in order. -/
def extendScan (vs : List SupportPoint) (v : SupportPoint) :
    List (ℕ × ℕ × ℕ) → List (ℕ × ℕ × ℕ) × List (ℕ × ℕ) → List (ℕ × ℕ × ℕ) × List (ℕ × ℕ)
  | [], acc => acc
  | t :: ts, (kept, edges) =>
    if isSameDirection (triNormal vs t) (Vec3.sub v.minkowski (minkAt vs t.1)) then
      extendScan vs v ts (kept, addEdge (addEdge (addEdge edges t.1 t.2.1) t.2.1 t.2.2) t.2.2 t.1)
    else
      extendScan vs v ts (kept ++ [t], edges)

/-- Simplex::extend: rejects a point whose Minkowski coordinate matches an
existing vertex without any change, otherwise appends the vertex, drops
the visible triangles and closes the boundary edges with new triangles. -/
def Simplex.extend (s : Simplex) (v : SupportPoint) : Bool × Simplex :=
  if s.verts.any (fun w => decide (w.minkowski = v.minkowski)) then (false, s)
  else
    let newPos := s.verts.length
    let verts2 := s.verts ++ [v]
    let scan := extendScan verts2 v s.triangles ([], [])
    (true, ⟨verts2, scan.1 ++ scan.2.map (fun e => (newPos, e.1, e.2))⟩)

/-- The closest face found at the start of one EPA iteration. -/
def epaFace (sq : ℚ → ℚ) (s : Simplex) : Face := findClosestFace sq s

/-- The support point one EPA iteration computes, in the direction of the
closest-face normal. -/
def epaP (sq : ℚ → ℚ) (c1 c2 : List Vec3) (s : Simplex) : SupportPoint :=
  support c1 c2 (epaFace sq s).normal

/-- The candidate distance d of one EPA iteration. -/
def epaD (sq : ℚ → ℚ) (c1 c2 : List Vec3) (s : Simplex) : ℚ :=
  |Vec3.dot (epaP sq c1 c2 s).minkowski (epaFace sq s).normal|

/-- One iteration of the EPA loop of GjkAlgorithm::EPA, faithfully to the
statement order of the source: the tolerance test sets the stop flag, then
extend runs unconditionally and sets the stop flag as well when the point is
a duplicate; the simplex the iteration leaves behind is always the one
extend produced. -/
def epaStep (sq : ℚ → ℚ) (c1 c2 : List Vec3) (s : Simplex) : Bool × Simplex :=
  let stop1 := decide (epaD sq c1 c2 s - (epaFace sq s).distance < EPA_TOLERANCE)
  let ext := s.extend (epaP sq c1 c2 s)
  (stop1 || !ext.1, ext.2)

/-- The Collision record, with the fields the core writes.  The two
participant object references are external pointers and carry no data the
claims mention, so they are not part of the embedding. -/
structure Collision where
  unitNormal : Vec3
  firstPOC : Vec3
  secondPOC : Vec3
  intersectionVector : Vec3
deriving DecidableEq

/-- CollisionCompareLess of Collision.h: compares two collisions by the
Euclidean norm of their intersection (penetration) vectors.  The norm of an
exact rational vector is the real square root of its dot square. -/
def CollisionCompareLess (lhs rhs : Collision) : Prop :=
  Real.sqrt ((Vec3.dot lhs.intersectionVector lhs.intersectionVector : ℚ) : ℝ) <
    Real.sqrt ((Vec3.dot rhs.intersectionVector rhs.intersectionVector : ℚ) : ℝ)

/-- The postcondition of std::sort with a strict-weak-order comparator: no
earlier element compares after a later one. -/
def StdSortedBy {α : Type} (r : α → α → Prop) (l : List α) : Prop :=
  l.Pairwise (fun a b => ¬ r b a)

/-- Specification-side predicate for getFurthestPoint: v is the first vertex
of the hull attaining the maximal dot product with the direction. -/
def FirstMaxPoint (convex : List Vec3) (direction v : Vec3) : Prop :=
  ∃ i, i < convex.length ∧ v = convex.getD i ⟨0, 0, 0⟩ ∧
    (∀ j, j < convex.length →
      Vec3.dot (convex.getD j ⟨0, 0, 0⟩) direction ≤ Vec3.dot v direction) ∧
    (∀ j, j < i →
      Vec3.dot (convex.getD j ⟨0, 0, 0⟩) direction < Vec3.dot v direction)

/-- Specification-side predicate for findClosestFace: f is the face record
of the first triangle attaining the minimal plane distance. -/
def FirstMinFace (sq : ℚ → ℚ) (s : Simplex) (f : Face) : Prop :=
  ∃ i, i < s.triangles.length ∧ f = mkFace sq s.verts (s.triangles.getD i (0, 0, 0)) ∧
    (∀ j, j < s.triangles.length →
      faceDistance sq s.verts (s.triangles.getD i (0, 0, 0)) ≤
        faceDistance sq s.verts (s.triangles.getD j (0, 0, 0))) ∧
    (∀ j, j < i →
      faceDistance sq s.verts (s.triangles.getD i (0, 0, 0)) <
        faceDistance sq s.verts (s.triangles.getD j (0, 0, 0)))

/-- The index of the tetrahedron vertex opposite a triangle of the two fixed
templates: the indices 0, 1, 2, 3 sum to 6. -/
def oppIdx (t : ℕ × ℕ × ℕ) : ℕ := 6 - (t.1 + t.2.1 + t.2.2)

/-- Specification-side description of a successful triangulation: four
vertices, exactly four appended triangles, every appended triangle passing
the outward-orientation test against its opposite vertex. -/
def TriangulateResult (sq : ℚ → ℚ) (s : Simplex) : Prop :=
  ∃ s2, triangulate sq s = some s2 ∧ s2.verts.length = 4 ∧
    s2.triangles.length = s.triangles.length + 4 ∧
    (∀ t ∈ s2.triangles.drop s.triangles.length,
      isCorrectOrderOn s2.verts t.1 t.2.1 t.2.2 (oppIdx t) = true)

/-- An exact rational square root: precise on rationals whose numerator and
denominator are perfect squares, which covers every concrete radicand used
below, where it agrees with the real square root of the doubles of the
source. -/
def sqrtUp (n : ℕ) : ℕ → ℕ
  | 0 => 0
  | k + 1 => if (k + 1) * (k + 1) ≤ n then k + 1 else sqrtUp n k

/-- The integer square root by downward search, structurally recursive so
that concrete evaluations reduce. -/
def natSqrtLin (n : ℕ) : ℕ := sqrtUp n n

def ratSqrt (q : ℚ) : ℚ := (natSqrtLin q.num.toNat : ℚ) / (natSqrtLin q.den : ℚ)

/-- A support point sitting over a single hull point, as produced by the
support function when the second hull is the origin. -/
def pointSP (v : Vec3) : SupportPoint := ⟨v, v, ⟨0, 0, 0⟩⟩

/-- Concrete hull for evaluations: a tetrahedron that strictly contains the
origin. -/
def cW1 : List Vec3 := [⟨-1, -1, -1⟩, ⟨3, -1, -1⟩, ⟨-1, 3, -1⟩, ⟨-1, -1, 3⟩]

/-- Concrete hull for evaluations: the single origin point. -/
def cW2 : List Vec3 := [⟨0, 0, 0⟩]

/-- Concrete tetrahedral simplex whose newest vertex sees the origin in
none of the three checked faces. -/
def SW4 : Simplex :=
  ⟨[pointSP ⟨1, 1, 1⟩, pointSP ⟨1, -1, -1⟩, pointSP ⟨-1, -1, 1⟩, pointSP ⟨-1, 1, -1⟩], []⟩

/-- Concrete incoming direction for the SW4 evaluation. -/
def DW4 : Vec3 := ⟨1, 0, 0⟩

/-- Concrete untriangulated tetrahedral simplex with axis-aligned faces. -/
def eTetra : Simplex :=
  ⟨[pointSP ⟨0, 0, 0⟩, pointSP ⟨4, 0, 0⟩, pointSP ⟨0, 2, 0⟩, pointSP ⟨0, 0, 2⟩], []⟩

/-- Concrete hull whose single point lies a millionth below the closest
face plane of the triangulated eTetra. -/
def eC1 : List Vec3 := [⟨1, 1 / 2, -1 / 1000000⟩]

/-- Concrete one-point hull at the origin. -/
def eC2 : List Vec3 := [⟨0, 0, 0⟩]

/-- The triangulation of eTetra, as triangulate produces it. -/
def S2e : Simplex := ⟨eTetra.verts, [(0, 2, 1), (0, 1, 3), (0, 3, 2), (1, 2, 3)]⟩

/-- A magnitude beyond the largest double. -/
def TBig : ℚ :=
  13582985290493858492773514283592667786034938469317445497485196697278130927542418487205392083207560592298578262953847383475038725543234929971155548342800628721885763499406390331782864144164680730766837160526223176512798435772129956553355286032203080380775759732320198985094884004069116123084147875437183658467465148948790552744165376

/-- The eTetra tetrahedron translated so far from the origin that every
face-plane distance exceeds the largest double. -/
def bigTetraBase : Simplex :=
  ⟨[pointSP ⟨TBig, TBig, TBig⟩, pointSP ⟨4 + TBig, TBig, TBig⟩,
    pointSP ⟨TBig, 2 + TBig, TBig⟩, pointSP ⟨TBig, TBig, 2 + TBig⟩], []⟩

/-- The triangulation of bigTetraBase, as triangulate produces it. -/
def Sbig : Simplex := ⟨bigTetraBase.verts, [(0, 2, 1), (0, 1, 3), (0, 3, 2), (1, 2, 3)]⟩

/-- A hull vertex and a direction whose exact dot product lies below the
negated largest double: in the double arithmetic of the source the product
overflows to negative infinity, and in this exact embedding it compares
below the sentinel the running maximum starts at, with the same effect. -/
def bigVert : Vec3 :=
  ⟨-4149515568880992958512407863691161151012446232242436899995657329690652811412908146399707048947103794288197886611300789182395151075411775307886874834113963687061181803401509523685376, 0, 0⟩

/-- The direction paired with bigVert. -/
def bigDir : Vec3 :=
  ⟨4149515568880992958512407863691161151012446232242436899995657329690652811412908146399707048947103794288197886611300789182395151075411775307886874834113963687061181803401509523685376, 0, 0⟩

/-- Concrete hull for the first-maximum evaluation. -/
def hullW : List Vec3 := [⟨1, 2, 3⟩, ⟨5, 0, 0⟩]

/-- Concrete direction for the first-maximum evaluation. -/
def dirW : Vec3 := ⟨1, 0, 0⟩

/-- Concrete triangulated simplex for the duplicate-rejection evaluation. -/
def S3w : Simplex := ⟨[pointSP ⟨1, 2, 3⟩, pointSP ⟨4, 5, 6⟩], [(0, 1, 0)]⟩

/-- A support point sharing its Minkowski coordinate with a vertex of S3w
while differing in the hull fields. -/
def p3w : SupportPoint := ⟨⟨4, 5, 6⟩, ⟨9, 9, 9⟩, ⟨1, 1, 1⟩⟩

/-- Concrete 2-vertex simplex with an empty triangle list. -/
def S5w : Simplex := ⟨[pointSP ⟨1, 0, 0⟩, pointSP ⟨0, 1, 0⟩], []⟩

/-- Concrete 2-vertex simplex carrying a pre-existing triangle. -/
def S5c : Simplex := ⟨[pointSP ⟨1, 0, 0⟩, pointSP ⟨0, 1, 0⟩], [(7, 7, 7)]⟩

/-- Collision with penetration vector (3, 4, 0), of magnitude 5. -/
def cexCollA : Collision := ⟨⟨0, 0, 0⟩, ⟨0, 0, 0⟩, ⟨0, 0, 0⟩, ⟨3, 4, 0⟩⟩

/-- Collision with penetration vector (5, 0, 0), also of magnitude 5. -/
def cexCollB : Collision := ⟨⟨0, 0, 0⟩, ⟨0, 0, 0⟩, ⟨0, 0, 0⟩, ⟨5, 0, 0⟩⟩

theorem getD_mem {α : Type} (l : List α) (j : ℕ) (d : α) (h : j < l.length) :
    l.getD j d ∈ l := by
  rw [List.getD_eq_getElem l d h]
  exact List.getElem_mem h

theorem DBL_MAX_eq : DBL_MAX = (((2 ^ 53 - 1) * 2 ^ 971 : ℕ) : ℚ) := by
  norm_num [DBL_MAX]

theorem TBig_eq : TBig = ((2 ^ 1100 : ℕ) : ℚ) := by
  norm_num [TBig]

theorem bigVert_eq : bigVert = ⟨-((2 ^ 600 : ℕ) : ℚ), 0, 0⟩ := by
  norm_num [bigVert]

/-- C8: Simplex.triangulate raises its fatal invalid-input error exactly
when the vertex count is below 2 or above 4; for counts 2, 3 and 4 it
succeeds.  The thrown error of the source is the none result here. -/
theorem triangulate_size_guard (sq : ℚ → ℚ) (s : Simplex) :
    triangulate sq s = none ↔ (s.verts.length < 2 ∨ 4 < s.verts.length) := by
  constructor
  · intro hn
    by_contra hcond
    unfold triangulate at hn
    rw [if_neg hcond] at hn
    dsimp only at hn
    split at hn <;> split at hn <;> split at hn <;> simp at hn
  · intro hcond
    unfold triangulate
    rw [if_pos hcond]

/-- C10: on an empty point cloud getFurthestPoint yields the origin for
every direction, since the running maximum starts at the negated largest
double and the candidate at the zero vector; support on two empty hulls
therefore yields a support point whose Minkowski coordinate is the origin,
and no error is signalled. -/
theorem getFurthestPoint_empty (d : Vec3) :
    getFurthestPoint [] d = ⟨0, 0, 0⟩ ∧
    (support [] [] d).minkowski = ⟨0, 0, 0⟩ ∧
    (support [] [] d).hull1 = ⟨0, 0, 0⟩ ∧
    (support [] [] d).hull2 = ⟨0, 0, 0⟩ := by
  refine ⟨rfl, ?_, rfl, rfl⟩
  show Vec3.sub ⟨0, 0, 0⟩ ⟨0, 0, 0⟩ = ⟨0, 0, 0⟩
  simp [Vec3.sub]

/-- C3: extending a simplex with a support point whose Minkowski coordinate
matches an existing vertex returns false and changes nothing: neither the
vertex list nor the triangle list. -/
theorem extend_duplicate (s : Simplex) (p : SupportPoint)
    (h : ∃ w ∈ s.verts, w.minkowski = p.minkowski) :
    s.extend p = (false, s) := by
  unfold Simplex.extend
  obtain ⟨w, hw, he⟩ := h
  have hany : s.verts.any (fun w => decide (w.minkowski = p.minkowski)) = true :=
    List.any_eq_true.mpr ⟨w, hw, by simp [he]⟩
  simp [hany]

/-- C3 witness: the duplicate rejection at a concrete triangulated simplex
and a concrete duplicate point. -/
theorem extend_duplicate_witness :
    (∃ w ∈ S3w.verts, w.minkowski = p3w.minkowski) ∧ S3w.extend p3w = (false, S3w) :=
  ⟨by with_unfolding_all decide, extend_duplicate S3w p3w (by with_unfolding_all decide)⟩

theorem extend_fresh (s : Simplex) (v : SupportPoint)
    (h : ¬ ∃ w ∈ s.verts, w.minkowski = v.minkowski) :
    (s.extend v).1 = true ∧ (s.extend v).2.verts = s.verts ++ [v] := by
  unfold Simplex.extend
  have hany : s.verts.any (fun w => decide (w.minkowski = v.minkowski)) = false := by
    push_neg at h
    simp only [List.any_eq_false, decide_eq_true_eq]
    exact h
  simp [hany]

/-- C2 (amended): in one EPA iteration the loop stops exactly when the
tolerance test succeeds or the new point is a duplicate, but the
simplex-mutating extend step runs unconditionally: the simplex the
iteration leaves is always the one extend produced, and whenever the new
point is not a duplicate the vertex list has grown by that point, whether
or not the tolerance test succeeded. -/
theorem epaStep_amended (sq : ℚ → ℚ) (c1 c2 : List Vec3) (s : Simplex) :
    ((epaStep sq c1 c2 s).1 = true ↔
      (epaD sq c1 c2 s - (epaFace sq s).distance < EPA_TOLERANCE ∨
        (s.extend (epaP sq c1 c2 s)).1 = false)) ∧
    (epaStep sq c1 c2 s).2 = (s.extend (epaP sq c1 c2 s)).2 ∧
    ((¬ ∃ w ∈ s.verts, w.minkowski = (epaP sq c1 c2 s).minkowski) →
      (epaStep sq c1 c2 s).2.verts = s.verts ++ [epaP sq c1 c2 s]) := by
  refine ⟨?_, rfl, ?_⟩
  · simp [epaStep, Bool.or_eq_true, decide_eq_true_eq, Bool.not_eq_true']
  · intro h
    exact (extend_fresh s (epaP sq c1 c2 s) h).2

/-- C2 witness: the unconditional mutation at the concrete EPA iteration of
the counterexample. -/
theorem epaStep_amended_witness :
    (¬ ∃ w ∈ S2e.verts, w.minkowski = (epaP ratSqrt eC1 eC2 S2e).minkowski) ∧
    (epaStep ratSqrt eC1 eC2 S2e).2.verts = S2e.verts ++ [epaP ratSqrt eC1 eC2 S2e] :=
  ⟨by with_unfolding_all decide, (epaStep_amended ratSqrt eC1 eC2 S2e).2.2 (by with_unfolding_all decide)⟩

/-- C2 counterexample: a concrete EPA iteration (on the triangulation of
eTetra against the hulls eC1, eC2) where the tolerance test succeeds, the
iteration stops, and nevertheless both the vertex list and the triangle
list of the simplex have been changed by the extend step that the claim
says is not performed. -/
theorem epaStep_tolerance_still_mutates :
    triangulate ratSqrt eTetra = some S2e ∧
    epaD ratSqrt eC1 eC2 S2e - (epaFace ratSqrt S2e).distance < EPA_TOLERANCE ∧
    (epaStep ratSqrt eC1 eC2 S2e).1 = true ∧
    (epaStep ratSqrt eC1 eC2 S2e).2.triangles ≠ S2e.triangles ∧
    (epaStep ratSqrt eC1 eC2 S2e).2.verts ≠ S2e.verts := by with_unfolding_all decide

theorem gjkLoop_none_iff (c1 c2 : List Vec3) :
    ∀ n (s : Simplex) (d : Vec3),
      gjkLoop c1 c2 n s d = none ↔ gjkSepSpec c1 c2 n s d = true := by
  intro n
  induction n with
  | zero => intro s d; simp [gjkLoop, gjkSepSpec]
  | succ n ih =>
    intro s d
    rw [gjkLoop, gjkSepSpec]
    by_cases h : Vec3.dot (support c1 c2 d).minkowski d ≤ 0
    · simp [isOppositeDirection, h]
    · simp only [isOppositeDirection, h, decide_False, if_false, Bool.false_eq_true]
      rcases hp : processSimplex ((s.add (support c1 c2 d))) d with ⟨b, s2, d2⟩
      cases b
      · simp [ih]
      · simp

/-- C1: intersect returns false exactly when some executed iteration of the
GJK loop computes a support point that does not advance past the origin in
the current search direction (non-positive dot product); in every other
case, including exhaustion of the 50-iteration cap, the loop hands its
current simplex to EPA (the some value of intersectOutcome) and intersect
returns true. -/
theorem intersect_false_iff (c1 c2 : List Vec3) :
    (intersect c1 c2 = false ↔
      gjkSepSpec c1 c2 MAX_ITERATIONS (initSimplex c1 c2) (initDir c1 c2) = true) ∧
    (gjkSepSpec c1 c2 MAX_ITERATIONS (initSimplex c1 c2) (initDir c1 c2) = false →
      ∃ s, intersectOutcome c1 c2 = some s ∧ intersect c1 c2 = true) := by
  have hiff : intersectOutcome c1 c2 = none ↔
      gjkSepSpec c1 c2 MAX_ITERATIONS (initSimplex c1 c2) (initDir c1 c2) = true :=
    gjkLoop_none_iff c1 c2 MAX_ITERATIONS (initSimplex c1 c2) (initDir c1 c2)
  constructor
  · cases h : intersectOutcome c1 c2 with
    | none => simp only [intersect, h, Option.isSome_none]
              exact iff_of_true (by trivial) (hiff.mp h)
    | some s => simp only [intersect, h, Option.isSome_some]
                constructor
                · intro hc; exact absurd hc (by simp)
                · intro hspec
                  exact absurd (hiff.mpr hspec) (by simp [h])
  · intro hspec
    cases h : intersectOutcome c1 c2 with
    | none => exact absurd (hiff.mp h) (by simp [hspec])
    | some s => exact ⟨s, rfl, by simp [intersect, h]⟩

/-- C1 witness: a concrete pair of hulls (a tetrahedron strictly containing
the origin and the origin point) on which no iteration detects separation
and the loop ends with a simplex handed to EPA. -/
theorem intersect_false_iff_witness :
    gjkSepSpec cW1 cW2 MAX_ITERATIONS (initSimplex cW1 cW2) (initDir cW1 cW2) = false ∧
    ∃ s, intersectOutcome cW1 cW2 = some s ∧ intersect cW1 cW2 = true :=
  ⟨by with_unfolding_all decide, (intersect_false_iff cW1 cW2).2 (by with_unfolding_all decide)⟩

theorem removeFirst_subset (l : List SupportPoint) (v : SupportPoint) :
    removeFirst l v ⊆ l := by
  induction l with
  | nil => simp [removeFirst]
  | cons p ps ih =>
    by_cases h : p = v
    · simp only [removeFirst, if_pos h]
      exact List.subset_cons_self p ps
    · simp only [removeFirst, if_neg h]
      exact List.cons_subset_cons p ih

theorem removeFirst_length_le (l : List SupportPoint) (v : SupportPoint) :
    (removeFirst l v).length ≤ l.length := by
  induction l with
  | nil => simp [removeFirst]
  | cons p ps ih =>
    by_cases h : p = v
    · simp only [removeFirst, if_pos h, List.length_cons]
      omega
    · simp only [removeFirst, if_neg h, List.length_cons]
      omega

theorem removeFirst_length_lt (l : List SupportPoint) (v : SupportPoint) (h : v ∈ l) :
    (removeFirst l v).length < l.length := by
  induction l with
  | nil => cases h
  | cons p ps ih =>
    by_cases hp : p = v
    · simp only [removeFirst, if_pos hp, List.length_cons]
      omega
    · have hv : v ∈ ps := by
        cases List.mem_cons.mp h with
        | inl he => exact absurd he.symm hp
        | inr hm => exact hm
      simp only [removeFirst, if_neg hp, List.length_cons]
      have := ih hv
      omega

theorem dot_self_nonneg (v : Vec3) : 0 ≤ Vec3.dot v v := by
  simp only [Vec3.dot]
  nlinarith [mul_self_nonneg v.x, mul_self_nonneg v.y, mul_self_nonneg v.z]

theorem dot_cross_cross (u w : Vec3) :
    Vec3.dot (Vec3.cross (Vec3.cross u w) u) w =
      Vec3.dot (Vec3.cross u w) (Vec3.cross u w) := by
  simp only [Vec3.dot, Vec3.cross]
  ring

theorem dir_toward_nonneg (u w : Vec3) :
    0 ≤ Vec3.dot (Vec3.cross (Vec3.cross u w) u) w := by
  rw [dot_cross_cross]
  exact dot_self_nonneg _

/-- C4: the tetrahedron routine returns true exactly when none of the three
non-base faces abc, acd, abd faces the origin (no strictly positive dot
with the direction from the newest vertex toward the origin); on true it
leaves the simplex and the direction untouched, and in every other case it
returns false, keeps only a subset of the vertices (strictly fewer than
four) and emits a search direction with a non-negative dot product toward
the origin. -/
theorem processTetrahedron_correct (s : Simplex) (d : Vec3) (h : s.count = 4) :
    ((processTetrahedron s d).1 = true ↔
      (isSameDirection (tetraABC s) (tetraAO s) = false ∧
       isSameDirection (tetraACD s) (tetraAO s) = false ∧
       isSameDirection (tetraABD s) (tetraAO s) = false)) ∧
    ((processTetrahedron s d).1 = true → (processTetrahedron s d).2 = (s, d)) ∧
    ((processTetrahedron s d).1 = false →
      (processTetrahedron s d).2.1.verts ⊆ s.verts ∧
      (processTetrahedron s d).2.1.verts.length < s.verts.length ∧
      0 ≤ Vec3.dot (processTetrahedron s d).2.2 (tetraAO s)) := by
  have hlen : s.verts.length = 4 := h
  have hmem : ∀ i, i < 4 → sIdx s i ∈ s.verts := by
    intro i hi
    exact getD_mem s.verts i default (by omega)
  have hsub1 : ∀ v, (s.remove v).verts ⊆ s.verts := fun v => removeFirst_subset _ _
  have hsub2 : ∀ v w, ((s.remove v).remove w).verts ⊆ s.verts := fun v w =>
    List.Subset.trans (removeFirst_subset _ _) (removeFirst_subset _ _)
  have hlt1 : ∀ i, i < 4 → ((s.remove (sIdx s i)).verts.length < s.verts.length) := by
    intro i hi
    exact removeFirst_length_lt _ _ (hmem i hi)
  have hlt2 : ∀ i v, i < 4 → (((s.remove (sIdx s i)).remove v).verts.length < s.verts.length) := by
    intro i v hi
    exact lt_of_le_of_lt (removeFirst_length_le _ _) (hlt1 i hi)
  have hpos : ∀ u w : Vec3, isSameDirection u w = true → 0 ≤ Vec3.dot u w := by
    intro u w hu
    exact le_of_lt (of_decide_eq_true hu)
  simp only [processTetrahedron, tetraABC, tetraACD, tetraABD, tetraAO, tetraA]
  split_ifs with hA hA1 hA2 hB hB1 hB2 hC hC1 hC2
  · exact ⟨by simp [hA], by simp, fun _ =>
      ⟨hsub2 _ _, hlt2 2 _ (by omega), dir_toward_nonneg _ _⟩⟩
  · exact ⟨by simp [hA], by simp, fun _ =>
      ⟨hsub2 _ _, hlt2 1 _ (by omega), dir_toward_nonneg _ _⟩⟩
  · exact ⟨by simp [hA], by simp, fun _ =>
      ⟨hsub1 _, hlt1 0 (by omega), hpos _ _ hA⟩⟩
  · exact ⟨by simp [hB], by simp, fun _ =>
      ⟨hsub2 _ _, hlt2 2 _ (by omega), dir_toward_nonneg _ _⟩⟩
  · exact ⟨by simp [hB], by simp, fun _ =>
      ⟨hsub2 _ _, hlt2 2 _ (by omega), dir_toward_nonneg _ _⟩⟩
  · exact ⟨by simp [hB], by simp, fun _ =>
      ⟨hsub1 _, hlt1 2 (by omega), hpos _ _ hB⟩⟩
  · exact ⟨by simp [hC], by simp, fun _ =>
      ⟨hsub2 _ _, hlt2 1 _ (by omega), dir_toward_nonneg _ _⟩⟩
  · exact ⟨by simp [hC], by simp, fun _ =>
      ⟨hsub2 _ _, hlt2 2 _ (by omega), dir_toward_nonneg _ _⟩⟩
  · exact ⟨by simp [hC], by simp, fun _ =>
      ⟨hsub1 _, hlt1 1 (by omega), hpos _ _ hC⟩⟩
  · exact ⟨by simp [hA, hB, hC], fun _ => rfl, fun hf => absurd hf (by simp)⟩

/-- C4 witness: a concrete tetrahedral simplex strictly containing the
origin, on which the routine converges. -/
theorem processTetrahedron_correct_witness :
    SW4.count = 4 ∧ (processTetrahedron SW4 DW4).1 = true :=
  ⟨by with_unfolding_all decide,
   (processTetrahedron_correct SW4 DW4 (by with_unfolding_all decide)).1.mpr
     (by with_unfolding_all decide)⟩

theorem gfpAux_const (dir : Vec3) :
    ∀ (l : List Vec3) (m : ℚ) (maxV : Vec3),
      (∀ v ∈ l, Vec3.dot v dir ≤ m) → gfpAux dir l m maxV = maxV := by
  intro l
  induction l with
  | nil => intro m maxV _; rfl
  | cons v vs ih =>
    intro m maxV h
    rw [gfpAux, if_neg (not_lt.mpr (h v (List.mem_cons_self v vs)))]
    exact ih m maxV fun w hw => h w (List.mem_cons_of_mem v hw)

theorem gfpAux_first (dir : Vec3) :
    ∀ (l : List Vec3) (m : ℚ) (maxV : Vec3),
      (∃ v ∈ l, m < Vec3.dot v dir) →
      ∃ i, i < l.length ∧ gfpAux dir l m maxV = l.getD i ⟨0, 0, 0⟩ ∧
        m < Vec3.dot (l.getD i ⟨0, 0, 0⟩) dir ∧
        (∀ j, j < l.length →
          Vec3.dot (l.getD j ⟨0, 0, 0⟩) dir ≤ Vec3.dot (l.getD i ⟨0, 0, 0⟩) dir) ∧
        (∀ j, j < i →
          Vec3.dot (l.getD j ⟨0, 0, 0⟩) dir < Vec3.dot (l.getD i ⟨0, 0, 0⟩) dir) := by
  intro l
  induction l with
  | nil =>
    rintro m maxV ⟨v, hv, -⟩
    cases hv
  | cons v vs ih =>
    intro m maxV hex
    by_cases h0 : m < Vec3.dot v dir
    · rw [gfpAux, if_pos h0]
      by_cases h1 : ∃ w ∈ vs, Vec3.dot v dir < Vec3.dot w dir
      · obtain ⟨i, hi, heq, hgt, hall, hfirst⟩ := ih (Vec3.dot v dir) v h1
        refine ⟨i + 1, by simpa using Nat.succ_lt_succ hi, by simpa using heq,
          lt_trans h0 hgt, ?_, ?_⟩
        · intro j hj
          match j with
          | 0 => simpa using le_of_lt hgt
          | j + 1 =>
            simp only [List.getD_cons_succ]
            exact hall j (by simpa using hj)
        · intro j hj
          match j with
          | 0 => simpa using hgt
          | j + 1 =>
            simp only [List.getD_cons_succ]
            exact hfirst j (by omega)
      · push_neg at h1
        rw [gfpAux_const dir vs (Vec3.dot v dir) v h1]
        refine ⟨0, by simp, by simp, by simpa using h0, ?_, ?_⟩
        · intro j hj
          match j with
          | 0 => simp
          | j + 1 =>
            simp only [List.getD_cons_succ, List.getD_cons_zero]
            exact h1 _ (getD_mem vs j ⟨0, 0, 0⟩ (by simpa using hj))
        · intro j hj
          omega
    · rw [gfpAux, if_neg h0]
      have hex2 : ∃ w ∈ vs, m < Vec3.dot w dir := by
        obtain ⟨w, hw, hm⟩ := hex
        cases List.mem_cons.mp hw with
        | inl he => exact absurd (he ▸ hm) h0
        | inr hm2 => exact ⟨w, hm2, hm⟩
      obtain ⟨i, hi, heq, hgt, hall, hfirst⟩ := ih m maxV hex2
      refine ⟨i + 1, by simpa using Nat.succ_lt_succ hi, by simpa using heq, hgt, ?_, ?_⟩
      · intro j hj
        match j with
        | 0 => simpa using le_of_lt (lt_of_le_of_lt (not_lt.mp h0) hgt)
        | j + 1 =>
          simp only [List.getD_cons_succ]
          exact hall j (by simpa using hj)
      · intro j hj
        match j with
        | 0 => simpa using lt_of_le_of_lt (not_lt.mp h0) hgt
        | j + 1 =>
          simp only [List.getD_cons_succ]
          exact hfirst j (by omega)

/-- C7 (amended): support is built from the two furthest-point queries
exactly as the claim decomposes it; and whenever some vertex has a dot
product above the sentinel the running maximum starts at (the negated
largest double, which holds for every input that does not overflow a
double), getFurthestPoint returns the first vertex attaining the maximal
dot product, and in particular a single-point hull yields its point. -/
theorem support_furthest_amended :
    (∀ c1 c2 dir, support c1 c2 dir =
      ⟨Vec3.sub (getFurthestPoint c1 dir) (getFurthestPoint c2 (Vec3.neg dir)),
       getFurthestPoint c1 dir, getFurthestPoint c2 (Vec3.neg dir)⟩) ∧
    (∀ hull dir, (∃ v ∈ hull, -DBL_MAX < Vec3.dot v dir) →
      FirstMaxPoint hull dir (getFurthestPoint hull dir)) ∧
    (∀ p dir, -DBL_MAX < Vec3.dot p dir → getFurthestPoint [p] dir = p) := by
  refine ⟨fun c1 c2 dir => rfl, ?_, ?_⟩
  · intro hull dir hex
    obtain ⟨i, hi, heq, _, hall, hfirst⟩ := gfpAux_first dir hull (-DBL_MAX) ⟨0, 0, 0⟩ hex
    have hv : getFurthestPoint hull dir = hull.getD i ⟨0, 0, 0⟩ := heq
    exact ⟨i, hi, hv, fun j hj => by rw [hv]; exact hall j hj,
      fun j hj => by rw [hv]; exact hfirst j hj⟩
  · intro p dir hp
    show gfpAux dir [p] (-DBL_MAX) ⟨0, 0, 0⟩ = p
    rw [gfpAux, if_pos hp]
    rfl

/-- C7 witness: the first-maximum characterization at a concrete two-point
hull, and the single-point case at a concrete point. -/
theorem support_furthest_amended_witness :
    (∃ v ∈ hullW, -DBL_MAX < Vec3.dot v dirW) ∧
    FirstMaxPoint hullW dirW (getFurthestPoint hullW dirW) ∧
    getFurthestPoint [⟨2, 3, 4⟩] ⟨1, 1, 1⟩ = ⟨2, 3, 4⟩ :=
  ⟨by with_unfolding_all decide,
   support_furthest_amended.2.1 hullW dirW (by with_unfolding_all decide),
   support_furthest_amended.2.2 ⟨2, 3, 4⟩ ⟨1, 1, 1⟩ (by with_unfolding_all decide)⟩

/-- C7 counterexample: a one-point hull and a direction whose exact dot
product lies below the negated largest double (in the source the double
product overflows to negative infinity with the same comparison result), so
the scan never updates its candidate and getFurthestPoint returns the
origin, which is not the hull vertex the claim promises. -/
theorem getFurthestPoint_overflow_cex :
    getFurthestPoint [bigVert] bigDir = ⟨0, 0, 0⟩ ∧
    bigVert ≠ ⟨0, 0, 0⟩ ∧
    (support [bigVert] [⟨0, 0, 0⟩] bigDir).minkowski ≠ bigVert := by
  with_unfolding_all decide

theorem mkFace_distance (sq : ℚ → ℚ) (vs : List SupportPoint) (t : ℕ × ℕ × ℕ) :
    (mkFace sq vs t).distance = faceDistance sq vs t := rfl

theorem fcfAux_nonneg (sq : ℚ → ℚ) (vs : List SupportPoint) :
    ∀ (ts : List (ℕ × ℕ × ℕ)) (acc : Face),
      0 ≤ acc.distance → 0 ≤ (fcfAux sq vs ts acc).distance := by
  intro ts
  induction ts with
  | nil => intro acc h; exact h
  | cons t ts ih =>
    intro acc h
    rw [fcfAux]
    split_ifs with ht
    · exact ih _ (abs_nonneg _)
    · exact ih _ h

theorem fcfAux_const (sq : ℚ → ℚ) (vs : List SupportPoint) :
    ∀ (ts : List (ℕ × ℕ × ℕ)) (acc : Face),
      (∀ t ∈ ts, ¬ (faceDistance sq vs t < acc.distance)) → fcfAux sq vs ts acc = acc := by
  intro ts
  induction ts with
  | nil => intro acc _; rfl
  | cons t ts ih =>
    intro acc h
    rw [fcfAux, if_neg (h t (List.mem_cons_self t ts))]
    exact ih acc fun w hw => h w (List.mem_cons_of_mem t hw)

theorem fcfAux_first (sq : ℚ → ℚ) (vs : List SupportPoint) :
    ∀ (ts : List (ℕ × ℕ × ℕ)) (acc : Face),
      (∃ t ∈ ts, faceDistance sq vs t < acc.distance) →
      ∃ i, i < ts.length ∧ fcfAux sq vs ts acc = mkFace sq vs (ts.getD i (0, 0, 0)) ∧
        faceDistance sq vs (ts.getD i (0, 0, 0)) < acc.distance ∧
        (∀ j, j < ts.length →
          faceDistance sq vs (ts.getD i (0, 0, 0)) ≤ faceDistance sq vs (ts.getD j (0, 0, 0))) ∧
        (∀ j, j < i →
          faceDistance sq vs (ts.getD i (0, 0, 0)) < faceDistance sq vs (ts.getD j (0, 0, 0))) := by
  intro ts
  induction ts with
  | nil =>
    rintro acc ⟨t, ht, -⟩
    cases ht
  | cons t ts ih =>
    intro acc hex
    by_cases h0 : faceDistance sq vs t < acc.distance
    · rw [fcfAux, if_pos h0]
      by_cases h1 : ∃ w ∈ ts, faceDistance sq vs w < faceDistance sq vs t
      · have h1m : ∃ w ∈ ts, faceDistance sq vs w < (mkFace sq vs t).distance := by
          simpa [mkFace_distance] using h1
        obtain ⟨i, hi, heq, hlt, hall, hfirst⟩ := ih (mkFace sq vs t) h1m
        rw [mkFace_distance] at hlt
        refine ⟨i + 1, by simpa using Nat.succ_lt_succ hi, by simpa using heq,
          lt_trans hlt h0, ?_, ?_⟩
        · intro j hj
          match j with
          | 0 => simpa using le_of_lt hlt
          | j + 1 =>
            simp only [List.getD_cons_succ]
            exact hall j (by simpa using hj)
        · intro j hj
          match j with
          | 0 => simpa using hlt
          | j + 1 =>
            simp only [List.getD_cons_succ]
            exact hfirst j (by omega)
      · push_neg at h1
        rw [fcfAux_const sq vs ts (mkFace sq vs t) (by simpa [mkFace_distance] using h1)]
        refine ⟨0, by simp, by simp, by simpa using h0, ?_, ?_⟩
        · intro j hj
          match j with
          | 0 => simp
          | j + 1 =>
            simp only [List.getD_cons_succ, List.getD_cons_zero]
            exact h1 _ (getD_mem ts j (0, 0, 0) (by simpa using hj))
        · intro j hj
          omega
    · rw [fcfAux, if_neg h0]
      have hex2 : ∃ w ∈ ts, faceDistance sq vs w < acc.distance := by
        obtain ⟨w, hw, hm⟩ := hex
        cases List.mem_cons.mp hw with
        | inl he => exact absurd (he ▸ hm) h0
        | inr hm2 => exact ⟨w, hm2, hm⟩
      obtain ⟨i, hi, heq, hlt, hall, hfirst⟩ := ih acc hex2
      refine ⟨i + 1, by simpa using Nat.succ_lt_succ hi, by simpa using heq, hlt, ?_, ?_⟩
      · intro j hj
        match j with
        | 0 => simpa using le_of_lt (lt_of_lt_of_le hlt (not_lt.mp h0))
        | j + 1 =>
          simp only [List.getD_cons_succ]
          exact hall j (by simpa using hj)
      · intro j hj
        match j with
        | 0 => simpa using lt_of_lt_of_le hlt (not_lt.mp h0)
        | j + 1 =>
          simp only [List.getD_cons_succ]
          exact hfirst j (by omega)

theorem triNormal_rotate (vs : List SupportPoint) (a b c : ℕ) :
    triNormal vs (b, c, a) = triNormal vs (a, b, c) := by
  simp only [triNormal, getNormalFromPoints]
  ext <;> simp [Vec3.cross, Vec3.sub] <;> ring

theorem dot_normal_rotate (A B C : Vec3) :
    Vec3.dot (getNormalFromPoints A B C) B = Vec3.dot (getNormalFromPoints A B C) A := by
  simp only [getNormalFromPoints, Vec3.dot, Vec3.cross, Vec3.sub]
  ring

/-- C6 (amended): findClosestFace never returns a negative distance and the
per-triangle distance is invariant under rotating the triangle's vertices;
and whenever at least one triangle's distance lies strictly below the
largest-double sentinel the default face starts at (which holds for every
non-degenerate query that does not overflow a double), the returned face is
the record of the first triangle attaining the minimal distance. -/
theorem findClosestFace_amended :
    (∀ (sq : ℚ → ℚ) (s : Simplex), 0 ≤ (findClosestFace sq s).distance) ∧
    (∀ (sq : ℚ → ℚ) (vs : List SupportPoint) (a b c : ℕ),
      faceDistance sq vs (b, c, a) = faceDistance sq vs (a, b, c)) ∧
    (∀ (sq : ℚ → ℚ) (s : Simplex),
      (∃ t ∈ s.triangles, faceDistance sq s.verts t < DBL_MAX) →
      FirstMinFace sq s (findClosestFace sq s)) := by
  refine ⟨?_, ?_, ?_⟩
  · intro sq s
    exact fcfAux_nonneg sq s.verts s.triangles initFace (by norm_num [initFace, DBL_MAX])
  · intro sq vs a b c
    have hn : triNormal vs (b, c, a) = triNormal vs (a, b, c) := triNormal_rotate vs a b c
    have hd : Vec3.dot (triNormal vs (a, b, c)) (minkAt vs b) =
        Vec3.dot (triNormal vs (a, b, c)) (minkAt vs a) :=
      dot_normal_rotate (minkAt vs a) (minkAt vs b) (minkAt vs c)
    simp only [faceDistance]
    rw [hn, hd]
  · intro sq s hex
    have hex2 : ∃ t ∈ s.triangles, faceDistance sq s.verts t < initFace.distance := hex
    obtain ⟨i, hi, heq, _, hall, hfirst⟩ := fcfAux_first sq s.verts s.triangles initFace hex2
    exact ⟨i, hi, heq, hall, hfirst⟩

/-- C6 witness: the first-minimum characterization at the concrete
triangulated axis-aligned tetrahedron. -/
theorem findClosestFace_amended_witness :
    (∃ t ∈ S2e.triangles, faceDistance ratSqrt S2e.verts t < DBL_MAX) ∧
    FirstMinFace ratSqrt S2e (findClosestFace ratSqrt S2e) :=
  ⟨by with_unfolding_all decide,
   findClosestFace_amended.2.2 ratSqrt S2e (by with_unfolding_all decide)⟩

/-- C6 counterexample: on the triangulation of a tetrahedron translated so
far from the origin that every face-plane distance exceeds the largest
double (in the source those distances overflow to infinity with the same
comparison results), findClosestFace returns the default-constructed face,
with an empty vertex list and a distance strictly below the distance of
every triangle of the simplex, so the returned face is not the
minimal-distance face of any current triangle as the claim promises. -/
theorem findClosestFace_sentinel_cex :
    Sbig.verts = bigTetraBase.verts ∧
    (triangulate ratSqrt bigTetraBase).map (fun s2 => s2.triangles) = some Sbig.triangles ∧
    Sbig.triangles ≠ [] ∧
    (findClosestFace ratSqrt Sbig).vertices = initFace.vertices ∧
    (findClosestFace ratSqrt Sbig).normal = initFace.normal ∧
    (∀ t ∈ Sbig.triangles,
      (findClosestFace ratSqrt Sbig).distance < faceDistance ratSqrt Sbig.verts t) := by
  refine ⟨rfl, ?_, ?_, ?_, ?_, ?_⟩ <;> with_unfolding_all decide

theorem orientA2 (v0 v1 v2 v3 : Vec3) :
    Vec3.dot (getNormalFromPoints v0 v3 v1) (Vec3.sub v2 v0) =
      Vec3.dot (getNormalFromPoints v0 v1 v2) (Vec3.sub v3 v0) := by
  simp only [getNormalFromPoints, Vec3.dot, Vec3.cross, Vec3.sub]
  ring

theorem orientA3 (v0 v1 v2 v3 : Vec3) :
    Vec3.dot (getNormalFromPoints v0 v2 v3) (Vec3.sub v1 v0) =
      Vec3.dot (getNormalFromPoints v0 v1 v2) (Vec3.sub v3 v0) := by
  simp only [getNormalFromPoints, Vec3.dot, Vec3.cross, Vec3.sub]
  ring

theorem orientA4 (v0 v1 v2 v3 : Vec3) :
    Vec3.dot (getNormalFromPoints v1 v3 v2) (Vec3.sub v0 v1) =
      Vec3.dot (getNormalFromPoints v0 v1 v2) (Vec3.sub v3 v0) := by
  simp only [getNormalFromPoints, Vec3.dot, Vec3.cross, Vec3.sub]
  ring

theorem orientB1 (v0 v1 v2 v3 : Vec3) :
    Vec3.dot (getNormalFromPoints v0 v2 v1) (Vec3.sub v3 v0) =
      -(Vec3.dot (getNormalFromPoints v0 v1 v2) (Vec3.sub v3 v0)) := by
  simp only [getNormalFromPoints, Vec3.dot, Vec3.cross, Vec3.sub]
  ring

theorem orientB2 (v0 v1 v2 v3 : Vec3) :
    Vec3.dot (getNormalFromPoints v0 v1 v3) (Vec3.sub v2 v0) =
      -(Vec3.dot (getNormalFromPoints v0 v1 v2) (Vec3.sub v3 v0)) := by
  simp only [getNormalFromPoints, Vec3.dot, Vec3.cross, Vec3.sub]
  ring

theorem orientB3 (v0 v1 v2 v3 : Vec3) :
    Vec3.dot (getNormalFromPoints v0 v3 v2) (Vec3.sub v1 v0) =
      -(Vec3.dot (getNormalFromPoints v0 v1 v2) (Vec3.sub v3 v0)) := by
  simp only [getNormalFromPoints, Vec3.dot, Vec3.cross, Vec3.sub]
  ring

theorem orientB4 (v0 v1 v2 v3 : Vec3) :
    Vec3.dot (getNormalFromPoints v1 v2 v3) (Vec3.sub v0 v1) =
      -(Vec3.dot (getNormalFromPoints v0 v1 v2) (Vec3.sub v3 v0)) := by
  simp only [getNormalFromPoints, Vec3.dot, Vec3.cross, Vec3.sub]
  ring

/-- Every triangle of the template chosen by the isCorrectOrder test passes
the outward-orientation test against its opposite vertex: the four scalar
triple products of template A all equal the tested one, those of template B
its negation. -/
theorem triangulate_templates_outward (vs : List SupportPoint) :
    ∀ t ∈ (if isCorrectOrderOn vs 0 1 2 3 = true then
        ([(0, 1, 2), (0, 3, 1), (0, 2, 3), (1, 3, 2)] : List (ℕ × ℕ × ℕ))
      else [(0, 2, 1), (0, 1, 3), (0, 3, 2), (1, 2, 3)]),
      isCorrectOrderOn vs t.1 t.2.1 t.2.2 (oppIdx t) = true := by
  by_cases hco : isCorrectOrderOn vs 0 1 2 3 = true
  · rw [if_pos hco]
    have hD : Vec3.dot (getNormalFromPoints (minkAt vs 0) (minkAt vs 1) (minkAt vs 2))
        (Vec3.sub (minkAt vs 3) (minkAt vs 0)) ≤ 0 := by
      have h2 := hco
      unfold isCorrectOrderOn isOppositeDirection at h2
      exact of_decide_eq_true h2
    intro t ht
    simp only [List.mem_cons, List.not_mem_nil, or_false] at ht
    rcases ht with rfl | rfl | rfl | rfl
    · exact hco
    · show isCorrectOrderOn vs 0 3 1 2 = true
      unfold isCorrectOrderOn isOppositeDirection
      rw [orientA2]
      exact decide_eq_true hD
    · show isCorrectOrderOn vs 0 2 3 1 = true
      unfold isCorrectOrderOn isOppositeDirection
      rw [orientA3]
      exact decide_eq_true hD
    · show isCorrectOrderOn vs 1 3 2 0 = true
      unfold isCorrectOrderOn isOppositeDirection
      rw [orientA4]
      exact decide_eq_true hD
  · rw [if_neg hco]
    have hD : 0 < Vec3.dot (getNormalFromPoints (minkAt vs 0) (minkAt vs 1) (minkAt vs 2))
        (Vec3.sub (minkAt vs 3) (minkAt vs 0)) := by
      have h2 : isCorrectOrderOn vs 0 1 2 3 = false := Bool.eq_false_iff.mpr hco
      unfold isCorrectOrderOn isOppositeDirection at h2
      exact not_le.mp (of_decide_eq_false h2)
    intro t ht
    simp only [List.mem_cons, List.not_mem_nil, or_false] at ht
    rcases ht with rfl | rfl | rfl | rfl
    · show isCorrectOrderOn vs 0 2 1 3 = true
      unfold isCorrectOrderOn isOppositeDirection
      rw [orientB1]
      exact decide_eq_true (by linarith)
    · show isCorrectOrderOn vs 0 1 3 2 = true
      unfold isCorrectOrderOn isOppositeDirection
      rw [orientB2]
      exact decide_eq_true (by linarith)
    · show isCorrectOrderOn vs 0 3 2 1 = true
      unfold isCorrectOrderOn isOppositeDirection
      rw [orientB3]
      exact decide_eq_true (by linarith)
    · show isCorrectOrderOn vs 1 2 3 0 = true
      unfold isCorrectOrderOn isOppositeDirection
      rw [orientB4]
      exact decide_eq_true (by linarith)

theorem triangulate_result_of (sq : ℚ → ℚ) (s : Simplex) (vs2 : List SupportPoint)
    (h4 : vs2.length = 4)
    (heq : triangulate sq s =
      if isCorrectOrderOn vs2 0 1 2 3 = true then
        some ⟨vs2, s.triangles ++ [(0, 1, 2), (0, 3, 1), (0, 2, 3), (1, 3, 2)]⟩
      else some ⟨vs2, s.triangles ++ [(0, 2, 1), (0, 1, 3), (0, 3, 2), (1, 2, 3)]⟩) :
    TriangulateResult sq s := by
  have hout := triangulate_templates_outward vs2
  by_cases hco : isCorrectOrderOn vs2 0 1 2 3 = true
  · rw [if_pos hco] at heq
    rw [if_pos hco] at hout
    refine ⟨⟨vs2, s.triangles ++ [(0, 1, 2), (0, 3, 1), (0, 2, 3), (1, 3, 2)]⟩,
      heq, h4, by simp, ?_⟩
    intro t ht
    rw [show (Simplex.mk vs2 (s.triangles ++ [(0, 1, 2), (0, 3, 1), (0, 2, 3), (1, 3, 2)])).triangles
        = s.triangles ++ [(0, 1, 2), (0, 3, 1), (0, 2, 3), (1, 3, 2)] from rfl,
      List.drop_left] at ht
    exact hout t ht
  · rw [if_neg hco] at heq
    rw [if_neg hco] at hout
    refine ⟨⟨vs2, s.triangles ++ [(0, 2, 1), (0, 1, 3), (0, 3, 2), (1, 2, 3)]⟩,
      heq, h4, by simp, ?_⟩
    intro t ht
    rw [show (Simplex.mk vs2 (s.triangles ++ [(0, 2, 1), (0, 1, 3), (0, 3, 2), (1, 2, 3)])).triangles
        = s.triangles ++ [(0, 2, 1), (0, 1, 3), (0, 3, 2), (1, 2, 3)] from rfl,
      List.drop_left] at ht
    exact hout t ht

/-- C5 (amended): on a simplex with 2, 3 or 4 vertices triangulate
succeeds, pads to exactly four vertices, and appends exactly four new
triangles (so a simplex with an empty triangle list, as at every EPA
invocation, ends with exactly four), and every appended triangle passes
the outward-orientation test (the sign of the scalar triple product)
against its opposite vertex. -/
theorem triangulate_amended (sq : ℚ → ℚ) (s : Simplex)
    (h : s.verts.length = 2 ∨ s.verts.length = 3 ∨ s.verts.length = 4) :
    TriangulateResult sq s := by
  have hguard : ¬(s.verts.length < 2 ∨ 4 < s.verts.length) := by
    rcases h with h | h | h <;> omega
  rcases h with h2 | h3 | h4
  · have l1 : (pad2 sq s.verts).length = 4 := by
      simp only [pad2, List.length_append, List.length_cons, List.length_nil]
      omega
    refine triangulate_result_of sq s (pad2 sq s.verts) l1 ?_
    simp only [triangulate]
    rw [if_neg hguard, if_pos h2, if_neg (show ¬(pad2 sq s.verts).length = 3 by omega)]
  · have l1 : (pad3 s.verts).length = 4 := by
      simp only [pad3, List.length_append, List.length_cons, List.length_nil]
      omega
    refine triangulate_result_of sq s (pad3 s.verts) l1 ?_
    simp only [triangulate]
    rw [if_neg hguard, if_neg (show ¬s.verts.length = 2 by omega), if_pos h3]
  · refine triangulate_result_of sq s s.verts h4 ?_
    simp only [triangulate]
    rw [if_neg hguard, if_neg (show ¬s.verts.length = 2 by omega),
      if_neg (show ¬s.verts.length = 3 by omega)]

/-- C5 witness: the amended triangulation property at a concrete 2-vertex
simplex with an empty triangle list. -/
theorem triangulate_amended_witness :
    (S5w.verts.length = 2 ∨ S5w.verts.length = 3 ∨ S5w.verts.length = 4) ∧
    TriangulateResult ratSqrt S5w :=
  ⟨by with_unfolding_all decide,
   triangulate_amended ratSqrt S5w (by with_unfolding_all decide)⟩

/-- C5 counterexample: triangulate appends its four triangles to whatever
triangle list the simplex already carries, so a 2-vertex simplex holding
one pre-existing triangle triangulates to five triangles, not the exactly
four the claim states for every simplex with 2 to 4 vertices. -/
theorem triangulate_appends_cex :
    S5c.verts.length = 2 ∧
    (triangulate ratSqrt S5c).map (fun s2 => s2.triangles.length) = some 5 ∧
    (triangulate ratSqrt S5c).map (fun s2 => s2.triangles.length) ≠ some 4 := by
  refine ⟨?_, ?_, ?_⟩ <;> with_unfolding_all decide

/-- C9 (amended): CollisionCompareLess compares two collisions exactly by
the Euclidean norm of their penetration vectors (equivalently, by the
squared norm, since the real square root is strictly monotone on the
non-negative dot squares), and any sequence in the postcondition of
std::sort with this comparator has non-decreasing penetration-vector
magnitudes: strictly ascending cannot be promised because distinct vectors
can share a magnitude. -/
theorem collisionCompare_amended :
    (∀ a b : Collision, CollisionCompareLess a b ↔
      Vec3.dot a.intersectionVector a.intersectionVector <
        Vec3.dot b.intersectionVector b.intersectionVector) ∧
    (∀ l : List Collision, StdSortedBy CollisionCompareLess l →
      l.Pairwise (fun a b =>
        Real.sqrt ((Vec3.dot a.intersectionVector a.intersectionVector : ℚ) : ℝ) ≤
          Real.sqrt ((Vec3.dot b.intersectionVector b.intersectionVector : ℚ) : ℝ))) := by
  constructor
  · intro a b
    unfold CollisionCompareLess
    rw [Real.sqrt_lt_sqrt_iff (by exact_mod_cast dot_self_nonneg _)]
    exact_mod_cast Iff.rfl
  · intro l h
    exact h.imp fun hab => not_lt.mp hab

/-- C9 witness: a sorted two-element sequence with non-decreasing
magnitudes, obtained from the amended theorem at concrete collisions. -/
theorem collisionCompare_amended_witness :
    List.Pairwise (fun a b : Collision =>
      Real.sqrt ((Vec3.dot a.intersectionVector a.intersectionVector : ℚ) : ℝ) ≤
        Real.sqrt ((Vec3.dot b.intersectionVector b.intersectionVector : ℚ) : ℝ))
      [cexCollA, cexCollB] := by
  have hs : StdSortedBy CollisionCompareLess [cexCollA, cexCollB] := by
    unfold StdSortedBy CollisionCompareLess
    refine List.pairwise_cons.mpr ⟨?_, List.pairwise_singleton _ _⟩
    intro b hb
    rw [List.mem_singleton] at hb
    subst hb
    have h25 : Vec3.dot cexCollB.intersectionVector cexCollB.intersectionVector =
        Vec3.dot cexCollA.intersectionVector cexCollA.intersectionVector := by
      norm_num [cexCollA, cexCollB, Vec3.dot]
    rw [h25]
    exact lt_irrefl _
  exact collisionCompare_amended.2 [cexCollA, cexCollB] hs

/-- C9 counterexample: the two distinct collisions with penetration
vectors (3, 4, 0) and (5, 0, 0) share the magnitude 5; the two-element
sequence holding them satisfies the std::sort postcondition for
CollisionCompareLess, yet its magnitudes are not strictly ascending (the
strict comparator relates no two of its elements). -/
theorem collisionSort_not_strict_cex :
    StdSortedBy CollisionCompareLess [cexCollA, cexCollB] ∧
    cexCollA ≠ cexCollB ∧
    ¬ List.Pairwise CollisionCompareLess [cexCollA, cexCollB] := by
  have h25 : Vec3.dot cexCollB.intersectionVector cexCollB.intersectionVector =
      Vec3.dot cexCollA.intersectionVector cexCollA.intersectionVector := by
    norm_num [cexCollA, cexCollB, Vec3.dot]
  refine ⟨?_, ?_, ?_⟩
  · unfold StdSortedBy CollisionCompareLess
    refine List.pairwise_cons.mpr ⟨?_, List.pairwise_singleton _ _⟩
    intro b hb
    rw [List.mem_singleton] at hb
    subst hb
    rw [h25]
    exact lt_irrefl _
  · with_unfolding_all decide
  · intro hp
    have hAB : CollisionCompareLess cexCollA cexCollB :=
      (List.pairwise_cons.mp hp).1 cexCollB (List.mem_singleton.mpr rfl)
    unfold CollisionCompareLess at hAB
    rw [h25] at hAB
    exact lt_irrefl _ hAB

end AsteroidGjk
